import Mathlib

/-!
Verification development for the dvoratt typing-practice engine.

The Rust core is shallowly embedded: each Rust struct becomes a Lean
structure, each `&mut self` method becomes a pure state-transformer, and
wall-clock `Instant` values are passed in explicitly as rational
timestamps (seconds).  `f32` speed arithmetic is modelled over `ℚ`; the
one place where IEEE division by zero is itself the subject of a claim
is modelled separately with an explicit finite/infinite/NaN value type.
Random shuffles (`rand::shuffle`) are modelled as injected parameters:
a function consuming a freshly shuffled list receives that list as an
extra argument, constrained to be a permutation of the list it shuffles
where the property at stake depends on it.
-/

namespace Dvoratt

/-- `Instant::elapsed` / `duration_since`: durations saturate at zero. -/
def durSince (now earlier : ℚ) : ℚ := max (now - earlier) 0

/-- Rust `Vec::pop().unwrap_or_default()` for `Vec<String>`: removes and
returns the last element, or the empty string when the vector is empty. -/
def popOrDefault (l : List String) : String × List String :=
  match l.getLast? with
  | some w => (w, l.dropLast)
  | none => ("", l)

/-- Rust `v.split_off(v.len().saturating_sub(2))`: the first component is
what remains in `v` (all but the last two), the second is the returned
suffix (the last at-most-two elements, in order). -/
def splitOffLast2 (l : List String) : List String × List String :=
  (l.take (l.length - 2), l.drop (l.length - 2))

/-- State of `word_queue.rs::WordQueue`.  The problem-word FIFO keeps its
front at the list head; `all_words` is the shuffled pool, popped from its
end exactly as Rust `Vec::pop` does. -/
structure WordQueue where
  problem_word_queue : List (String × Nat)
  original_words : List String
  all_words : List String
  current_word : String
  next_words : List String
  is_repeating_problem_word : Bool
  problem_word_repetitions : Nat
  deriving DecidableEq

namespace WordQueue

/-- `WordQueue::new`.  `shuffled` is the result of shuffling `initial_words`
(injected; constrained to a permutation where it matters). -/
def new (initial_words shuffled : List String) : WordQueue :=
  let (c, a1) := popOrDefault shuffled
  let (n1, a2) := popOrDefault a1
  let (n2, a3) := popOrDefault a2
  { problem_word_queue := []
    original_words := initial_words
    all_words := a3
    current_word := c
    next_words := [n1, n2]
    is_repeating_problem_word := false
    problem_word_repetitions := 0 }

/-- One iteration of the refill `while` loop body in `next_word`: if the
pool is exhausted it is refreshed from the (re-shuffled) original list,
then one word is popped into the lookahead buffer. -/
def refillStep (reshuffled all next : List String) : List String × List String :=
  let all1 := if all.isEmpty then reshuffled else all
  let (w, all2) := popOrDefault all1
  (all2, next ++ [w])

/-- The `while self.next_words.len() < 2` refill loop of `next_word`.
Each iteration grows `next_words` by one, so two unrolled iterations
reach length ≥ 2 from any starting state the program produces. -/
def refillLoop (reshuffled all next : List String) : List String × List String :=
  if next.length < 2 then
    let (a1, n1) := refillStep reshuffled all next
    if n1.length < 2 then refillStep reshuffled a1 n1 else (a1, n1)
  else (all, next)

/-- The part of `WordQueue::next_word` after the repeat-mode early-return
block: optional lookahead refill via `split_off`, selection of the next
current word (problem-queue front first), and the refill loop.  Returns
`none` on the one panicking path of the Rust code (`next_words.remove(0)`
on an empty vector, possible only when pool, lookahead and problem queue
are all empty). -/
def nextWordAdvance (q1 : WordQueue) (reshuffled : List String) : Option WordQueue :=
  let (allA, nextA) :=
    if q1.next_words.isEmpty then splitOffLast2 q1.all_words
    else (q1.all_words, q1.next_words)
  match q1.problem_word_queue.head? with
  | some (problem_word, _) =>
    let (all2, next2) := refillLoop reshuffled allA nextA
    some { q1 with current_word := problem_word
                   is_repeating_problem_word := true
                   problem_word_repetitions := 0
                   all_words := all2
                   next_words := next2 }
  | none =>
    match nextA with
    | [] => none
    | c :: rest =>
      let (all2, next2) := refillLoop reshuffled allA rest
      some { q1 with current_word := c
                     all_words := all2
                     next_words := next2 }

/-- `WordQueue::next_word`.  `reshuffled` stands for the re-shuffle of
`original_words` performed when the pool runs dry. -/
def nextWord (q : WordQueue) (reshuffled : List String) : Option WordQueue :=
  if q.is_repeating_problem_word ∧ q.problem_word_repetitions < 3 then
    some q
  else
    nextWordAdvance
      (if q.is_repeating_problem_word then
        { q with is_repeating_problem_word := false
                 problem_word_repetitions := 0
                 problem_word_queue := q.problem_word_queue.tail }
      else q)
      reshuffled

/-- Helper for `add_problem_word`: Rust finds the position of the first
entry holding `word` and resets that entry's counter to 0. -/
def setFirstMatch : List (String × Nat) → String → List (String × Nat)
  | [], _ => []
  | (w, n) :: rest, word =>
    if w = word then (w, 0) :: rest else (w, n) :: setFirstMatch rest word

/-- `WordQueue::add_problem_word`. -/
def add_problem_word (q : WordQueue) (word : String) : WordQueue :=
  let pq :=
    if q.problem_word_queue.any (fun p => p.1 = word) then
      setFirstMatch q.problem_word_queue word
    else
      q.problem_word_queue ++ [(word, 0)]
  { q with problem_word_queue := pq
           is_repeating_problem_word := true
           problem_word_repetitions := 0 }

/-- `WordQueue::update_problem_word_correct_attempt`.  The counter is a
`u8` in Rust; its value never exceeds 3 under the session controller's
call discipline, so plain `Nat` increment is faithful. -/
def update_problem_word_correct_attempt (q : WordQueue) : WordQueue :=
  if q.is_repeating_problem_word then
    { q with problem_word_repetitions := q.problem_word_repetitions + 1 }
  else q

/-- `WordQueue::change_word_list`.  `shuffled` is the injected shuffle of
`new_words`. -/
def change_word_list (q : WordQueue) (new_words shuffled : List String) : WordQueue :=
  let (rest, taken) := splitOffLast2 shuffled
  let (c, rest2) := popOrDefault rest
  { q with original_words := new_words
           all_words := rest2
           current_word := c
           next_words := taken }

end WordQueue

/-- An entry of `problem_words.rs::ProblemWordEntry`.  `avg_speed` is an
`f32` in Rust, modelled over `ℚ`; `backspaces` is `u32` and
`correct_attempts` is `u8`, both modelled as `Nat` (never near their
ranges under the session's call discipline). -/
structure ProblemWordEntry where
  word : String
  avg_speed : ℚ
  backspaces : Nat
  correct_attempts : Nat
  deriving DecidableEq

/-- `ProblemWords::add`: the first entry for `word` (if any) gets its
speed smoothed by `(old + new) / 2`, its backspace count overwritten and
its correct-attempt counter reset; otherwise a fresh entry is pushed at
the back. -/
def pwAdd : List ProblemWordEntry → String → ℚ → Nat → List ProblemWordEntry
  | [], word, speed, backspace_count => [⟨word, speed, backspace_count, 0⟩]
  | e :: rest, word, speed, backspace_count =>
    if e.word = word then
      ⟨e.word, (e.avg_speed + speed) / 2, backspace_count, 0⟩ :: rest
    else
      e :: pwAdd rest word speed backspace_count

/-- `ProblemWords::update_correct_attempts`: increments the counter of the
first entry for `word`, if present. -/
def pwUpdateCorrectAttempts : List ProblemWordEntry → String → List ProblemWordEntry
  | [], _ => []
  | e :: rest, word =>
    if e.word = word then
      { e with correct_attempts := e.correct_attempts + 1 } :: rest
    else
      e :: pwUpdateCorrectAttempts rest word

/-- `ProblemWords::remove_learned_words`: retain entries that are still
slow or not yet reliably correct. -/
def pwRemoveLearnedWords (l : List ProblemWordEntry) : List ProblemWordEntry :=
  l.filter (fun e => e.avg_speed < 30 ∨ e.correct_attempts < 2)

/-- `WordSpeedTracker::update_recent_word_speeds`: push at the back, then
drop the front when the window exceeds 10. -/
def wstUpdate (l : List ℚ) (speed : ℚ) : List ℚ :=
  let l1 := l ++ [speed]
  if 10 < l1.length then l1.tail else l1

/-- Descending-by-speed comparison used for the fastest-words list. -/
abbrev descSp (a b : String × ℚ) : Prop := b.2 ≤ a.2

/-- Ascending-by-speed comparison used for the slowest-words list and the
struggle-combination table. -/
abbrev ascSp (a b : String × ℚ) : Prop := a.2 ≤ b.2

instance : IsTotal (String × ℚ) descSp := ⟨fun a b => le_total b.2 a.2⟩

instance : IsTrans (String × ℚ) descSp := ⟨fun _ _ _ h1 h2 => le_trans h2 h1⟩

instance : IsTotal (String × ℚ) ascSp := ⟨fun a b => le_total a.2 b.2⟩

instance : IsTrans (String × ℚ) ascSp := ⟨fun _ _ _ h1 h2 => le_trans h1 h2⟩

/-- `FastestSlowestWords::update_fastest_words`.  Rust's stable
`sort_by` with a descending `f32` comparator is modelled by insertion
sort under `descSp`; the claims under study do not depend on the order of
equal-speed entries (the spec leaves it unspecified). -/
def update_fastest_words (l : List (String × ℚ)) (word : String) (speed : ℚ) :
    List (String × ℚ) :=
  let g : Bool := decide (l.length < 10) ||
    (match l.getLast? with
     | some p => decide (p.2 < speed)
     | none => false)
  if g then
    let l1 := l.eraseP (fun p => p.1 == word)
    (List.insertionSort descSp (l1 ++ [(word, speed)])).take 10
  else l

/-- `FastestSlowestWords::update_slowest_words`. -/
def update_slowest_words (l : List (String × ℚ)) (word : String) (speed : ℚ) :
    List (String × ℚ) :=
  let g : Bool := decide (l.length < 10) ||
    (match l.getLast? with
     | some p => decide (speed < p.2)
     | none => false)
  if g then
    let l1 := l.eraseP (fun p => p.1 == word)
    (List.insertionSort ascSp (l1 ++ [(word, speed)])).take 10
  else l

/-- `fastest_slowest_words.rs::FastestSlowestWords`. -/
structure FastestSlowestWords where
  fastest_words : List (String × ℚ)
  slowest_words : List (String × ℚ)
  deriving DecidableEq

/-- `FastestSlowestWords::update`. -/
def FastestSlowestWords.update (t : FastestSlowestWords) (word : String) (speed : ℚ) :
    FastestSlowestWords :=
  { fastest_words := update_fastest_words t.fastest_words word speed
    slowest_words := update_slowest_words t.slowest_words word speed }

/-- `StruggleCombinations::get_letter_combinations`: the 2- and 3-letter
substrings starting at each index of the typed text (byte indexing in
Rust, character indexing here; the word lists are ASCII). -/
def get_letter_combinations (l : List Char) : List (List Char) :=
  ((List.range l.length).map (fun i =>
    (if i < l.length - 1 then [(l.drop i).take 2] else []) ++
    (if 2 ≤ l.length ∧ i < l.length - 2 then [(l.drop i).take 3] else []))).flatten

/-- One combination's ledger step inside `StruggleCombinations::update`:
average into the first matching entry, else push. -/
def scAddOne : List (String × ℚ) → String → ℚ → List (String × ℚ)
  | [], combo, speed => [(combo, speed)]
  | (c0, s0) :: rest, combo, speed =>
    if c0 = combo then (c0, (s0 + speed) / 2) :: rest
    else (c0, s0) :: scAddOne rest combo speed

/-- `StruggleCombinations::calculate_combo_speed`. -/
def calculate_combo_speed (combo_len : Nat) (dur : ℚ) : ℚ :=
  ((combo_len : ℚ) / 5) / (dur / 60)

/-- `StruggleCombinations::update`: fold every combination of the typed
text into the table, then sort ascending by speed and truncate to 50. -/
def scUpdate (l : List (String × ℚ)) (dur : ℚ) (user_input : String) :
    List (String × ℚ) :=
  let combos := get_letter_combinations user_input.data
  let l1 := combos.foldl
    (fun acc combo => scAddOne acc (String.mk combo) (calculate_combo_speed combo.length dur)) l
  (List.insertionSort ascSp l1).take 50

/-- `performance_tracker.rs::PerformanceTracker`.  Timestamps are rational
seconds; `total_time` is the accumulated `Duration` in seconds. -/
structure PerformanceTracker where
  recent_word_speeds : List ℚ
  fastest_slowest_words : FastestSlowestWords
  problem_words : List ProblemWordEntry
  struggle_combinations : List (String × ℚ)
  last_keypress_time : Option ℚ
  word_start_time : Option ℚ
  total_time : ℚ
  total_correct_chars : Nat
  backspace_count : Nat
  mistyped_chars : List Nat
  deriving DecidableEq

namespace PerformanceTracker

/-- `PerformanceTracker::default`. -/
def default : PerformanceTracker :=
  { recent_word_speeds := []
    fastest_slowest_words := ⟨[], []⟩
    problem_words := []
    struggle_combinations := []
    last_keypress_time := none
    word_start_time := none
    total_time := 0
    total_correct_chars := 0
    backspace_count := 0
    mistyped_chars := [] }

def update_struggle_combinations (p : PerformanceTracker) (dur : ℚ) (user_input : String) :
    PerformanceTracker :=
  { p with struggle_combinations := scUpdate p.struggle_combinations dur user_input }

def set_last_keypress_time (p : PerformanceTracker) (time : ℚ) : PerformanceTracker :=
  { p with last_keypress_time := some time }

def start_word_if_needed (p : PerformanceTracker) (time : ℚ) : PerformanceTracker :=
  match p.word_start_time with
  | some _ => p
  | none => { p with word_start_time := some time }

def record_mistype (p : PerformanceTracker) (pos : Nat) : PerformanceTracker :=
  { p with mistyped_chars := p.mistyped_chars ++ [pos] }

/-- `undo_mistype_at`: pop the most recent mistyped position when it
equals `pos`. -/
def undo_mistype_at (p : PerformanceTracker) (pos : Nat) : PerformanceTracker :=
  match p.mistyped_chars.getLast? with
  | some last => if last = pos then { p with mistyped_chars := p.mistyped_chars.dropLast } else p
  | none => p

def record_backspace (p : PerformanceTracker) : PerformanceTracker :=
  { p with backspace_count := p.backspace_count + 1 }

def backspace_used (p : PerformanceTracker) : Bool :=
  decide (0 < p.backspace_count)

/-- `record_word_completed`: accumulate elapsed time and correct
characters, only when a word start was recorded. -/
def record_word_completed (p : PerformanceTracker) (now : ℚ) (word_len : Nat) :
    PerformanceTracker :=
  match p.word_start_time with
  | some t =>
    { p with total_time := p.total_time + durSince now t
             total_correct_chars := p.total_correct_chars + word_len }
  | none => p

def reset_word_state (p : PerformanceTracker) : PerformanceTracker :=
  { p with mistyped_chars := []
           backspace_count := 0
           word_start_time := none }

def update_recent_word_speeds (p : PerformanceTracker) (speed : ℚ) : PerformanceTracker :=
  { p with recent_word_speeds := wstUpdate p.recent_word_speeds speed }

def update_fastest_slowest_words (p : PerformanceTracker) (word : String) (speed : ℚ) :
    PerformanceTracker :=
  { p with fastest_slowest_words := p.fastest_slowest_words.update word speed }

def add_problem_word (p : PerformanceTracker) (word : String) (speed : ℚ) :
    PerformanceTracker :=
  { p with problem_words := pwAdd p.problem_words word speed p.backspace_count }

def update_problem_word_correct_attempts (p : PerformanceTracker) (word : String) :
    PerformanceTracker :=
  { p with problem_words := pwUpdateCorrectAttempts p.problem_words word }

def remove_learned_words (p : PerformanceTracker) : PerformanceTracker :=
  { p with problem_words := pwRemoveLearnedWords p.problem_words }

end PerformanceTracker

/-! ### IEEE-faithful model of the two speed computations

Claim C2 is about what `f32` division does when the elapsed time is
exactly zero, so for those two functions the result is modelled with an
explicit finite / +infinity / NaN value type instead of `ℚ`.  All
numerators and denominators arising in the program are nonnegative and
finite, which is all `fpDiv` needs to cover. -/

/-- A nonnegative `f32` result: finite value, +∞, or NaN. -/
inductive FpVal where
  | fin (q : ℚ)
  | inf
  | nan
  deriving DecidableEq

/-- IEEE division for nonnegative finite operands: `x / 0` is `+∞` for
`x > 0` and NaN for `0 / 0`; otherwise exact. -/
def fpDiv (a b : ℚ) : FpVal :=
  if b = 0 then (if a = 0 then FpVal.nan else FpVal.inf) else FpVal.fin (a / b)

/-- `app.rs::App::calculate_word_speed`, `f32`-faithful: when a word
start is recorded, `(len / 5) / minutes` with no guard against a zero
elapsed time; otherwise the literal `0.0`. -/
def calculate_word_speed_f32 (word_len : Nat) (word_start_time : Option ℚ) (now : ℚ) : FpVal :=
  match word_start_time with
  | some t => fpDiv ((word_len : ℚ) / 5) (durSince now t / 60)
  | none => FpVal.fin 0

/-- `performance_tracker.rs::PerformanceTracker::average_wpm`,
`f32`-faithful: guarded to return `0.0` when the cumulative minutes are
zero. -/
def average_wpm_f32 (total_time_secs : ℚ) (total_correct_chars : Nat) : FpVal :=
  let minutes := total_time_secs / 60
  if minutes = 0 then FpVal.fin 0
  else fpDiv ((total_correct_chars : ℚ) / 5) minutes

/-! ### Session controller (`app.rs::App`)

The word-list table and its index live outside the algorithmic core
(list loading is excluded I/O); the controller state that every claim
touches is the performance tracker, the word queue and the live input
buffer.  `Instant::now()` is injected as the `now` argument of each
keystroke, and the pool re-shuffle that `next_word` may perform is
injected as `reshuffled`. -/

/-- The decoded key events the core reacts to (`crossterm::KeyCode`,
restricted to the variants `on_key` distinguishes). -/
inductive Key where
  | char (c : Char)
  | backspace
  | other
  deriving DecidableEq

structure App where
  performance : PerformanceTracker
  word_queue : WordQueue
  user_input : String
  deriving DecidableEq

namespace App

/-- `App::calculate_word_speed` over `ℚ` (the `f32`-faithful version for
the zero-elapsed case is `calculate_word_speed_f32`). -/
def calculate_word_speed (a : App) (now : ℚ) : ℚ :=
  match a.performance.word_start_time with
  | some t =>
    let minutes := durSince now t / 60
    ((a.word_queue.current_word.length : ℚ) / 5) / minutes
  | none => 0

/-- `App::add_problem_word`: records the current word in the ledger (with
the attempt's speed and backspace count) and in the queue's problem
FIFO. -/
def add_problem_word (a : App) (now : ℚ) : App :=
  let speed := a.calculate_word_speed now
  let cw := a.word_queue.current_word
  { a with performance := a.performance.add_problem_word cw speed
           word_queue := a.word_queue.add_problem_word cw }

/-- `App::on_word_completed` (the space-key handler).  Returns `none` on
the panicking path of `next_word`. -/
def on_word_completed (a : App) (now : ℚ) (reshuffled : List String) : Option App :=
  if a.user_input = a.word_queue.current_word then
    let speed := a.calculate_word_speed now
    let p1 := a.performance.update_recent_word_speeds speed
    let p2 := p1.update_fastest_slowest_words a.user_input speed
    let p3 := p2.record_word_completed now a.word_queue.current_word.length
    let pq :=
      if a.word_queue.is_repeating_problem_word then
        let q2 := a.word_queue.update_problem_word_correct_attempt
        if 3 ≤ q2.problem_word_repetitions then
          (p3.update_problem_word_correct_attempts a.word_queue.current_word, q2)
        else (p3, q2)
      else if p3.backspace_used then
        (p3.add_problem_word a.word_queue.current_word (a.calculate_word_speed now),
         a.word_queue.add_problem_word a.word_queue.current_word)
      else
        (p3.update_problem_word_correct_attempts a.word_queue.current_word, a.word_queue)
    let p5 := pq.1.remove_learned_words
    match pq.2.nextWord reshuffled with
    | none => none
    | some q5 =>
      some { performance := p5.reset_word_state, word_queue := q5, user_input := "" }
  else
    let a1 := a.add_problem_word now
    some { a1 with performance := a1.performance.reset_word_state, user_input := "" }

/-- `App::on_key`. -/
def on_key (a : App) (now : ℚ) (reshuffled : List String) (key : Key) : Option App :=
  let p1 := if key = Key.backspace then a.performance
            else a.performance.start_word_if_needed now
  let p2 :=
    match p1.last_keypress_time with
    | some t => p1.update_struggle_combinations (durSince now t) a.user_input
    | none => p1
  let p3 := p2.set_last_keypress_time now
  let a1 := { a with performance := p3 }
  match key with
  | Key.char c =>
    if c = ' ' then a1.on_word_completed now reshuffled
    else
      let p4 :=
        match a1.word_queue.current_word.data.get? a1.user_input.data.length with
        | some expected => if c ≠ expected
            then a1.performance.record_mistype a1.user_input.data.length
            else a1.performance
        | none => a1.performance
      some { a1 with performance := p4
                     user_input := String.mk (a1.user_input.data ++ [c]) }
  | Key.backspace =>
    if a1.user_input = "" then some a1
    else
      let u2 := String.mk a1.user_input.data.dropLast
      let p4 := (a1.performance.undo_mistype_at u2.data.length).record_backspace
      let a2 := { a1 with performance := p4, user_input := u2 }
      some (a2.add_problem_word now)
  | Key.other => some a1

end App

/-! ### Reachable word-queue states

The session controller calls `add_problem_word` only with the queue's
own current word (`app.rs::App::add_problem_word`), so reachability
bakes in that discipline.  Shuffles are constrained to permutations of
the list they shuffle.  `ReachNoSwitch` omits the `change_word_list`
transition; `Reach` includes it. -/

inductive WordQueue.ReachNoSwitch : WordQueue → Prop where
  | init (initial shuffled : List String) (h : shuffled.Perm initial) :
      WordQueue.ReachNoSwitch (WordQueue.new initial shuffled)
  | flag (q : WordQueue) : WordQueue.ReachNoSwitch q →
      WordQueue.ReachNoSwitch (q.add_problem_word q.current_word)
  | correct (q : WordQueue) : WordQueue.ReachNoSwitch q →
      WordQueue.ReachNoSwitch q.update_problem_word_correct_attempt
  | advance (q q' : WordQueue) (reshuffled : List String) : WordQueue.ReachNoSwitch q →
      reshuffled.Perm q.original_words → q.nextWord reshuffled = some q' →
      WordQueue.ReachNoSwitch q'

inductive WordQueue.Reach : WordQueue → Prop where
  | init (initial shuffled : List String) (h : shuffled.Perm initial) :
      WordQueue.Reach (WordQueue.new initial shuffled)
  | flag (q : WordQueue) : WordQueue.Reach q →
      WordQueue.Reach (q.add_problem_word q.current_word)
  | correct (q : WordQueue) : WordQueue.Reach q →
      WordQueue.Reach q.update_problem_word_correct_attempt
  | advance (q q' : WordQueue) (reshuffled : List String) : WordQueue.Reach q →
      reshuffled.Perm q.original_words → q.nextWord reshuffled = some q' →
      WordQueue.Reach q'
  | switch (q : WordQueue) (new_words shuffled : List String) : WordQueue.Reach q →
      shuffled.Perm new_words → WordQueue.Reach (q.change_word_list new_words shuffled)

/-! ### Helper lemmas -/

/-- `ProblemWords::add` on a word with no existing entry appends a fresh
entry at the back. -/
lemma pwAdd_of_not_mem (l : List ProblemWordEntry) (w : String) (s : ℚ) (b : Nat)
    (h : ∀ e ∈ l, e.word ≠ w) : pwAdd l w s b = l ++ [⟨w, s, b, 0⟩] := by
  induction l with
  | nil => rfl
  | cons e rest ih =>
    have he : e.word ≠ w := h e (List.mem_cons_self e rest)
    simp only [pwAdd, if_neg he, List.cons_append, List.cons.injEq, true_and]
    exact ih (fun e1 h1 => h e1 (List.mem_cons_of_mem e h1))

/-- `ProblemWords::add` on a word whose first entry is `e`: that entry is
smoothed and reset, the rest untouched. -/
lemma pwAdd_of_mem (l1 l2 : List ProblemWordEntry) (e : ProblemWordEntry) (w : String)
    (s : ℚ) (b : Nat) (he : e.word = w) (h1 : ∀ e1 ∈ l1, e1.word ≠ w) :
    pwAdd (l1 ++ e :: l2) w s b = l1 ++ (⟨w, (e.avg_speed + s) / 2, b, 0⟩ : ProblemWordEntry) :: l2 := by
  induction l1 with
  | nil => simp [pwAdd, he]
  | cons a t ih =>
    have ha : a.word ≠ w := h1 a (List.mem_cons_self a t)
    simp only [List.cons_append, pwAdd, if_neg ha, List.cons.injEq, true_and]
    exact ih (fun e1 hm => h1 e1 (List.mem_cons_of_mem a hm))

/-- `ProblemWords::update_correct_attempts` is a no-op when no entry holds
the word. -/
lemma pwUpdateCorrectAttempts_of_not_mem (l : List ProblemWordEntry) (w : String)
    (h : ∀ e ∈ l, e.word ≠ w) : pwUpdateCorrectAttempts l w = l := by
  induction l with
  | nil => rfl
  | cons e rest ih =>
    have he : e.word ≠ w := h e (List.mem_cons_self e rest)
    simp only [pwUpdateCorrectAttempts, if_neg he, List.cons.injEq, true_and]
    exact ih (fun e1 h1 => h e1 (List.mem_cons_of_mem e h1))

/-- `ProblemWords::add` always leaves an entry for the added word. -/
lemma pwAdd_exists_entry (l : List ProblemWordEntry) (w : String) (s : ℚ) (b : Nat) :
    ∃ e ∈ pwAdd l w s b, e.word = w := by
  induction l with
  | nil => exact ⟨⟨w, s, b, 0⟩, List.mem_singleton.mpr rfl, rfl⟩
  | cons e rest ih =>
    by_cases he : e.word = w
    · exact ⟨⟨e.word, (e.avg_speed + s) / 2, b, 0⟩, by
        simp only [pwAdd, if_pos he]; exact List.mem_cons_self _ _, he⟩
    · obtain ⟨e1, hm, hw⟩ := ih
      exact ⟨e1, by simp [pwAdd, if_neg he, hm], hw⟩

/-- `setFirstMatch` leaves the matched entry present with its counter
reset. -/
lemma setFirstMatch_mem (l : List (String × Nat)) (w : String)
    (h : ∃ p ∈ l, p.1 = w) : (w, 0) ∈ WordQueue.setFirstMatch l w := by
  induction l with
  | nil => simp at h
  | cons a t ih =>
    by_cases ha : a.1 = w
    · subst ha; simp [WordQueue.setFirstMatch]
    · obtain ⟨p, hp, hw⟩ := h
      rcases List.mem_cons.mp hp with h1 | h1
      · exact absurd (h1 ▸ hw) ha
      · simp only [WordQueue.setFirstMatch, if_neg ha, List.mem_cons]
        exact Or.inr (ih ⟨p, h1, hw⟩)

/-- After `WordQueue::add_problem_word w`, the FIFO holds an entry
`(w, 0)`. -/
lemma addProblemWord_mem_queue (q : WordQueue) (w : String) :
    (w, 0) ∈ (q.add_problem_word w).problem_word_queue := by
  unfold WordQueue.add_problem_word
  by_cases h : q.problem_word_queue.any (fun p => p.1 = w)
  · simp only [if_pos h]
    refine setFirstMatch_mem _ _ ?_
    obtain ⟨p, hp, hw⟩ := List.any_eq_true.mp h
    exact ⟨p, hp, of_decide_eq_true hw⟩
  · simp [if_neg h]

/-! ### Claim C2 (corrected) -/

/-- C2 counterexample: with a recorded word start and zero elapsed time,
`App::calculate_word_speed` divides by zero and, in `f32`, produces
`+∞` for a 5-character word — not the defined zero rate the claim
asserts. -/
theorem c2_counterexample :
    calculate_word_speed_f32 5 (some 0) 0 = FpVal.inf ∧ FpVal.inf ≠ FpVal.fin 0 := by
  constructor
  · simp [calculate_word_speed_f32, fpDiv, durSince]
  · intro h; cases h

/-- C2, amended: the aggregate `average_wpm` is guarded and returns 0
when the cumulative elapsed time is 0, and `calculate_word_speed`
returns 0 when no word start is recorded; but when a start time is
recorded and the elapsed time is exactly 0, `calculate_word_speed` has
no guard and its `f32` division yields `+∞` for any non-empty word. -/
theorem c2_zero_elapsed_speeds :
    (∀ (chars : Nat), average_wpm_f32 0 chars = FpVal.fin 0) ∧
    (∀ (len : Nat) (now : ℚ), calculate_word_speed_f32 len none now = FpVal.fin 0) ∧
    (∀ (len : Nat) (t : ℚ), 0 < len → calculate_word_speed_f32 len (some t) t = FpVal.inf) := by
  refine ⟨fun chars => by simp [average_wpm_f32], fun len now => rfl, fun len t h => ?_⟩
  have hl : (len : ℚ) ≠ 0 := Nat.cast_ne_zero.mpr (Nat.pos_iff_ne_zero.mp h)
  simp [calculate_word_speed_f32, fpDiv, durSince, hl]

/-- C2 witness: the amended statement at concrete inputs. -/
theorem c2_zero_elapsed_speeds_witness :
    average_wpm_f32 0 7 = FpVal.fin 0 ∧
    calculate_word_speed_f32 5 none 3 = FpVal.fin 0 ∧
    calculate_word_speed_f32 5 (some 2) 2 = FpVal.inf :=
  ⟨c2_zero_elapsed_speeds.1 7, c2_zero_elapsed_speeds.2.1 5 3,
   c2_zero_elapsed_speeds.2.2 5 2 (by decide)⟩

/-! ### Claim C3 (confirmed) -/

/-- C3: an entry survives `remove_learned_words` exactly when the mastery
conjunction `avg_speed ≥ 30 ∧ correct_attempts ≥ 2` fails; it is removed
exactly when both conjuncts hold. -/
theorem c3_ledger_eviction_iff (pw : List ProblemWordEntry) (e : ProblemWordEntry)
    (h : e ∈ pw) :
    e ∈ pwRemoveLearnedWords pw ↔ ¬(30 ≤ e.avg_speed ∧ 2 ≤ e.correct_attempts) := by
  unfold pwRemoveLearnedWords
  rw [List.mem_filter]
  simp only [h, true_and, decide_eq_true_eq]
  rw [not_and_or, not_le, not_le]

/-- C3 witness: a slow entry with one correct attempt is retained. -/
theorem c3_ledger_eviction_iff_witness :
    (⟨"slow", 20, 1, 1⟩ : ProblemWordEntry) ∈
      pwRemoveLearnedWords [⟨"slow", 20, 1, 1⟩] :=
  (c3_ledger_eviction_iff [⟨"slow", 20, 1, 1⟩] ⟨"slow", 20, 1, 1⟩
    (List.mem_singleton.mpr rfl)).mpr (by norm_num)

/-! ### Claim C6 (confirmed) -/

/-- C6: `ProblemWords::add` applies the IIR recurrence
`avg := (avg + new) / 2` to an existing entry, overwrites its backspace
count and resets its correct-attempt counter; a word with no entry gets
a fresh entry carrying the new speed and a zero counter. -/
theorem c6_ledger_add_semantics (l : List ProblemWordEntry) (w : String) (s : ℚ) (b : Nat) :
    ((∀ e ∈ l, e.word ≠ w) → pwAdd l w s b = l ++ [⟨w, s, b, 0⟩]) ∧
    (∀ (l1 l2 : List ProblemWordEntry) (e : ProblemWordEntry),
      l = l1 ++ e :: l2 → e.word = w → (∀ e1 ∈ l1, e1.word ≠ w) →
      pwAdd l w s b = l1 ++ (⟨w, (e.avg_speed + s) / 2, b, 0⟩ : ProblemWordEntry) :: l2) := by
  refine ⟨fun h => pwAdd_of_not_mem l w s b h, ?_⟩
  rintro l1 l2 e rfl he h1
  exact pwAdd_of_mem l1 l2 e w s b he h1

/-- C6 witness: both branches at concrete ledgers. -/
theorem c6_ledger_add_semantics_witness :
    pwAdd [⟨"other", 10, 2, 1⟩] "word" 20 3 =
      [⟨"other", 10, 2, 1⟩, ⟨"word", 20, 3, 0⟩] ∧
    pwAdd [⟨"other", 10, 2, 1⟩, ⟨"word", 12, 5, 2⟩] "word" 20 3 =
      [⟨"other", 10, 2, 1⟩, ⟨"word", 16, 3, 0⟩] := by
  constructor
  · exact (c6_ledger_add_semantics [⟨"other", 10, 2, 1⟩] "word" 20 3).1
      (by intro e he; simp at he; subst he; decide)
  · have := (c6_ledger_add_semantics [⟨"other", 10, 2, 1⟩, ⟨"word", 12, 5, 2⟩] "word" 20 3).2
      [⟨"other", 10, 2, 1⟩] [] ⟨"word", 12, 5, 2⟩ rfl rfl
      (by intro e he; simp at he; subst he; decide)
    rw [this]
    norm_num

/-! ### Claim C10 (confirmed) -/

/-- C10: `change_word_list` with a non-empty list of at most two words
leaves `current_word` the empty string: `split_off` moves every word into
the lookahead buffer and the final pop falls back to the default. -/
theorem c10_short_list_empty_current (q : WordQueue) (new_words shuffled : List String)
    (hp : shuffled.Perm new_words) (hne : new_words ≠ []) (hle : new_words.length ≤ 2) :
    (q.change_word_list new_words shuffled).current_word = "" := by
  have hl : shuffled.length - 2 = 0 :=
    Nat.sub_eq_zero_of_le (hp.length_eq ▸ hle)
  simp [WordQueue.change_word_list, splitOffLast2, popOrDefault, hl]

/-- C10 witness: a two-word list yields an empty current word. -/
theorem c10_short_list_empty_current_witness :
    ((WordQueue.new ["p", "q"] ["p", "q"]).change_word_list ["hi", "yo"]
      ["yo", "hi"]).current_word = "" :=
  c10_short_list_empty_current _ ["hi", "yo"] ["yo", "hi"] (by decide) (by decide) (by decide)

/-! ### Characterization of `next_word` -/

/-- When the problem queue is non-empty, advancing serves its front word
and enters repeat mode without touching the queue. -/
lemma WordQueue.nextWordAdvance_head_some (q1 : WordQueue) (r : List String) (w : String) (n : Nat)
    (h : q1.problem_word_queue.head? = some (w, n)) :
    ∃ q', WordQueue.nextWordAdvance q1 r = some q' ∧
      q'.current_word = w ∧ q'.is_repeating_problem_word = true ∧
      q'.problem_word_repetitions = 0 ∧ q'.problem_word_queue = q1.problem_word_queue := by
  unfold WordQueue.nextWordAdvance
  rw [h]
  exact ⟨_, rfl, rfl, rfl, rfl, rfl⟩

/-- When the problem queue is empty, a successful advance keeps the flag
and the queue as they are in `q1`. -/
lemma WordQueue.nextWordAdvance_head_none (q1 q' : WordQueue) (r : List String)
    (h : q1.problem_word_queue.head? = none) (hq : WordQueue.nextWordAdvance q1 r = some q') :
    q'.is_repeating_problem_word = q1.is_repeating_problem_word ∧
    q'.problem_word_queue = q1.problem_word_queue ∧
    q'.problem_word_repetitions = q1.problem_word_repetitions := by
  unfold WordQueue.nextWordAdvance at hq
  rw [h] at hq
  rcases he : (if q1.next_words.isEmpty then splitOffLast2 q1.all_words
      else (q1.all_words, q1.next_words)).2 with _ | ⟨c, rest⟩ <;>
    simp only [he] at hq
  · cases hq
  · cases hq
    exact ⟨rfl, rfl, rfl⟩

/-- In repeat mode with fewer than 3 repetitions, `next_word` is the
identity transition. -/
lemma nextWord_of_repeating_lt (q : WordQueue) (r : List String)
    (h1 : q.is_repeating_problem_word = true) (h2 : q.problem_word_repetitions < 3) :
    q.nextWord r = some q := by
  unfold WordQueue.nextWord
  rw [if_pos ⟨h1, h2⟩]

/-- If an advance out of repeat mode succeeds and clears the flag, then
at least 3 repetitions had been recorded and the front problem word was
popped. -/
lemma nextWord_clears (q q' : WordQueue) (r : List String)
    (h : q.nextWord r = some q') (hrep : q.is_repeating_problem_word = true)
    (hrep' : q'.is_repeating_problem_word = false) :
    3 ≤ q.problem_word_repetitions ∧
    q'.problem_word_queue = q.problem_word_queue.tail := by
  by_cases h3 : q.problem_word_repetitions < 3
  · rw [nextWord_of_repeating_lt q r hrep h3] at h
    cases h
    rw [hrep] at hrep'
    cases hrep'
  · refine ⟨not_lt.mp h3, ?_⟩
    unfold WordQueue.nextWord at h
    rw [if_neg (fun hc => h3 hc.2), if_pos hrep] at h
    set q1 : WordQueue :=
      { q with is_repeating_problem_word := false
               problem_word_repetitions := 0
               problem_word_queue := q.problem_word_queue.tail } with hq1
    rcases hh : q1.problem_word_queue.head? with _ | ⟨w, n⟩
    · exact (WordQueue.nextWordAdvance_head_none q1 q' r hh h).2.1
    · obtain ⟨q2, he, _, hw2, _, _⟩ := WordQueue.nextWordAdvance_head_some q1 r w n hh
      rw [he] at h
      cases h
      rw [hw2] at hrep'
      cases hrep'

/-! ### Claim C4 (confirmed) -/

/-- C4: in repeat mode below 3 repetitions, advancing re-serves the same
state (hence the same current word); flagging always resets the
repetition counter to 0 and (re-)enters repeat mode; a successful
advance can only clear the repeat flag once at least 3 repetitions are
recorded; and with exactly 3 repetitions and no further queued problem
word, advancing does leave repeat mode. -/
theorem c4_repeat_loop (q : WordQueue) :
    (∀ (r : List String), q.is_repeating_problem_word = true →
      q.problem_word_repetitions < 3 → q.nextWord r = some q) ∧
    (∀ (w : String), (q.add_problem_word w).problem_word_repetitions = 0 ∧
      (q.add_problem_word w).is_repeating_problem_word = true) ∧
    (∀ (q' : WordQueue) (r : List String), q.nextWord r = some q' →
      q.is_repeating_problem_word = true → q'.is_repeating_problem_word = false →
      3 ≤ q.problem_word_repetitions) ∧
    (∀ (q' : WordQueue) (r : List String), q.is_repeating_problem_word = true →
      q.problem_word_repetitions = 3 → q.problem_word_queue.tail = [] →
      q.nextWord r = some q' → q'.is_repeating_problem_word = false) := by
  refine ⟨fun r h1 h2 => nextWord_of_repeating_lt q r h1 h2,
    fun w => by simp [WordQueue.add_problem_word],
    fun q' r h hrep hrep' => (nextWord_clears q q' r h hrep hrep').1,
    fun q' r hrep h3 htail h => ?_⟩
  unfold WordQueue.nextWord at h
  rw [if_neg (fun hc => by rw [h3] at hc; exact absurd hc.2 (lt_irrefl 3)),
    if_pos hrep] at h
  set q1 : WordQueue :=
    { q with is_repeating_problem_word := false
             problem_word_repetitions := 0
             problem_word_queue := q.problem_word_queue.tail } with hq1
  have hh : q1.problem_word_queue.head? = none := by
    rw [hq1]
    show q.problem_word_queue.tail.head? = none
    rw [htail]; rfl
  have hch := WordQueue.nextWordAdvance_head_none q1 q' r hh h
  rw [hch.1, hq1]

/-- C4 witness: a freshly flagged word with one recorded repetition is
re-served unchanged, and flagging resets the counter. -/
theorem c4_repeat_loop_witness :
    ((((WordQueue.new ["a", "b", "c"] ["a", "b", "c"]).add_problem_word
        "c").update_problem_word_correct_attempt).nextWord [] =
      some (((WordQueue.new ["a", "b", "c"] ["a", "b", "c"]).add_problem_word
        "c").update_problem_word_correct_attempt)) ∧
    ((((WordQueue.new ["a", "b", "c"] ["a", "b", "c"]).add_problem_word
        "c").update_problem_word_correct_attempt).add_problem_word
        "c").problem_word_repetitions = 0 :=
  ⟨(c4_repeat_loop _).1 [] (by decide) (by decide),
   ((c4_repeat_loop _).2.1 "c").1⟩

/-! ### Claim C1 (corrected) -/

/-- The repeat-flag invariant maintained by all word-queue transitions
except `change_word_list`: the flag tracks non-emptiness of the problem
FIFO, and the FIFO's front word (when any) is the current word. -/
def WQInv (q : WordQueue) : Prop :=
  (q.is_repeating_problem_word = true ↔ q.problem_word_queue ≠ []) ∧
  (∀ (w : String) (n : Nat), q.problem_word_queue.head? = some (w, n) →
    q.current_word = w)

lemma wqInv_new (initial shuffled : List String) : WQInv (WordQueue.new initial shuffled) := by
  constructor
  · simp [WordQueue.new]
  · intro w n h
    simp [WordQueue.new] at h

lemma setFirstMatch_head_word (l : List (String × Nat)) (w : String) :
    (WordQueue.setFirstMatch l w).head?.map Prod.fst = l.head?.map Prod.fst := by
  cases l with
  | nil => rfl
  | cons a t =>
    rcases a with ⟨x, n⟩
    by_cases hx : x = w <;> simp [WordQueue.setFirstMatch, hx]

lemma setFirstMatch_ne_nil (l : List (String × Nat)) (w : String) (h : l ≠ []) :
    WordQueue.setFirstMatch l w ≠ [] := by
  cases l with
  | nil => exact absurd rfl h
  | cons a t =>
    rcases a with ⟨x, n⟩
    by_cases hx : x = w <;> simp [WordQueue.setFirstMatch, hx]

lemma wqInv_flag (q : WordQueue) (h : WQInv q) :
    WQInv (q.add_problem_word q.current_word) := by
  obtain ⟨h1, h2⟩ := h
  unfold WordQueue.add_problem_word
  by_cases ha : q.problem_word_queue.any (fun p => p.1 = q.current_word)
  · rw [if_pos ha]
    have hne : q.problem_word_queue ≠ [] := by
      intro hn; rw [hn] at ha; simp at ha
    refine ⟨by simp [setFirstMatch_ne_nil _ _ hne], ?_⟩
    intro w n hw
    have := setFirstMatch_head_word q.problem_word_queue q.current_word
    rw [hw] at this
    rcases hh : q.problem_word_queue.head? with _ | ⟨x, m⟩
    · rw [hh] at this; cases this
    · rw [hh] at this
      simp at this
      have hx := h2 x m hh
      exact this ▸ hx
  · rw [if_neg ha]
    refine ⟨by simp, ?_⟩
    intro w n hw
    rcases hq : q.problem_word_queue with _ | ⟨a, t⟩
    · rw [hq] at hw
      simp only [List.nil_append, List.head?_cons, Option.some.injEq, Prod.mk.injEq] at hw
      show q.current_word = w
      exact hw.1
    · rw [hq] at hw
      simp only [List.cons_append, List.head?_cons, Option.some.injEq] at hw
      show q.current_word = w
      have ha1 := h2 a.1 a.2 (by rw [hq]; simp)
      rw [ha1, hw]

lemma wqInv_correct (q : WordQueue) (h : WQInv q) :
    WQInv q.update_problem_word_correct_attempt := by
  obtain ⟨h1, h2⟩ := h
  unfold WordQueue.update_problem_word_correct_attempt
  by_cases hr : q.is_repeating_problem_word = true
  · rw [if_pos hr]; exact ⟨h1, h2⟩
  · rw [if_neg hr]; exact ⟨h1, h2⟩

lemma wqInv_advance (q q' : WordQueue) (r : List String) (h : WQInv q)
    (hq : q.nextWord r = some q') : WQInv q' := by
  obtain ⟨h1, h2⟩ := h
  by_cases hearly : q.is_repeating_problem_word = true ∧ q.problem_word_repetitions < 3
  · rw [nextWord_of_repeating_lt q r hearly.1 hearly.2] at hq
    cases hq
    exact ⟨h1, h2⟩
  · unfold WordQueue.nextWord at hq
    rw [if_neg hearly] at hq
    by_cases hrep : q.is_repeating_problem_word = true
    · rw [if_pos hrep] at hq
      set q1 : WordQueue :=
        { q with is_repeating_problem_word := false
                 problem_word_repetitions := 0
                 problem_word_queue := q.problem_word_queue.tail } with hq1
      rcases hh : q1.problem_word_queue.head? with _ | ⟨w, n⟩
      · obtain ⟨e1, e2, _⟩ := WordQueue.nextWordAdvance_head_none q1 q' r hh hq
        have htail : q1.problem_word_queue = [] := List.head?_eq_none_iff.mp hh
        constructor
        · rw [e1, e2, htail, hq1]
          simp
        · intro w n hw
          rw [e2, htail] at hw
          cases hw
      · obtain ⟨q2, he, hc, hf, _, hpq⟩ := WordQueue.nextWordAdvance_head_some q1 r w n hh
        rw [he] at hq
        cases hq
        constructor
        · rw [hf, hpq]
          have hne : q1.problem_word_queue ≠ [] := by
            intro hn; rw [hn] at hh; cases hh
          simp [hne]
        · intro w1 n1 hw1
          rw [hpq, hh] at hw1
          simp only [Option.some.injEq, Prod.mk.injEq] at hw1
          rw [hc, hw1.1]
    · rw [if_neg hrep] at hq
      have hpq : q.problem_word_queue = [] := by
        by_contra hne
        exact hrep (h1.mpr hne)
      have hh : q.problem_word_queue.head? = none := by rw [hpq]; rfl
      obtain ⟨e1, e2, _⟩ := WordQueue.nextWordAdvance_head_none q q' r hh hq
      constructor
      · rw [e1, e2, hpq]
        constructor
        · intro hx; exact absurd hx hrep
        · intro hx; exact absurd rfl hx
      · intro w n hw
        rw [e2, hpq] at hw
        cases hw

/-- Every state reachable without a list switch satisfies the
repeat-flag invariant. -/
lemma reachNoSwitch_inv (q : WordQueue) (h : WordQueue.ReachNoSwitch q) : WQInv q := by
  induction h with
  | init initial shuffled hp => exact wqInv_new initial shuffled
  | flag q hq ih => exact wqInv_flag q ih
  | correct q hq ih => exact wqInv_correct q ih
  | advance q q' r hq hp hstep ih => exact wqInv_advance q q' r ih hstep

/-- C1 counterexample state: flag the current word of a fresh queue, then
switch word lists while the repeat flag is set.  `change_word_list`
re-derives `current_word` from the new pool but clears neither the flag
nor the FIFO. -/
def c1CexState : WordQueue :=
  ((WordQueue.new ["a", "b", "c"] ["a", "b", "c"]).add_problem_word
    (WordQueue.new ["a", "b", "c"] ["a", "b", "c"]).current_word).change_word_list
    ["x", "y", "z"] ["x", "y", "z"]

/-- C1 counterexample: a reachable state (one `Tab` list switch while
repeating) where `is_repeating_problem_word` is true yet `current_word`
is not the front of the problem FIFO, refuting the claimed invariant
over all reachable states. -/
theorem c1_counterexample :
    WordQueue.Reach c1CexState ∧
    c1CexState.is_repeating_problem_word = true ∧
    ¬ ∃ n, c1CexState.problem_word_queue.head? = some (c1CexState.current_word, n) := by
  refine ⟨?_, by decide, ?_⟩
  · exact WordQueue.Reach.switch _ _ _
      (WordQueue.Reach.flag _ (WordQueue.Reach.init _ _ (by decide))) (by decide)
  · rintro ⟨n, h⟩
    have h1 : c1CexState.problem_word_queue.head? = some ("c", 0) := by decide
    have h2 : c1CexState.current_word = "x" := by decide
    rw [h1, h2] at h
    simp only [Option.some.injEq, Prod.mk.injEq] at h
    exact absurd h.1 (by decide)

/-- C1, amended: for every state reachable *without* `change_word_list`,
the repeat flag holds exactly when the current word is the FIFO's front;
the flag is cleared only by an advance with at least 3 recorded
repetitions, which pops the front of the FIFO; and neither flagging nor
recording a correct attempt ever clears the flag.  A list switch while
repeating keeps the flag and the FIFO but re-derives `current_word`,
breaking the front-of-FIFO correspondence. -/
theorem c1_repeat_flag_invariant :
    (∀ (q : WordQueue), WordQueue.ReachNoSwitch q →
      (q.is_repeating_problem_word = true ↔
        ∃ n, q.problem_word_queue.head? = some (q.current_word, n))) ∧
    (∀ (q q' : WordQueue) (r : List String), q.nextWord r = some q' →
      q.is_repeating_problem_word = true → q'.is_repeating_problem_word = false →
      3 ≤ q.problem_word_repetitions ∧
      q'.problem_word_queue = q.problem_word_queue.tail) ∧
    (∀ (q : WordQueue) (w : String),
      (q.add_problem_word w).is_repeating_problem_word = true) ∧
    (∀ (q : WordQueue),
      q.update_problem_word_correct_attempt.is_repeating_problem_word =
        q.is_repeating_problem_word) := by
  refine ⟨?_, fun q q' r h hrep hrep' => nextWord_clears q q' r h hrep hrep',
    fun q w => by simp [WordQueue.add_problem_word], fun q => ?_⟩
  · intro q hq
    obtain ⟨h1, h2⟩ := reachNoSwitch_inv q hq
    constructor
    · intro hrep
      have hne := h1.mp hrep
      rcases hh : q.problem_word_queue.head? with _ | ⟨w, n⟩
      · exact absurd (List.head?_eq_none_iff.mp hh) hne
      · have hcw := h2 w n hh
        subst hcw
        exact ⟨n, rfl⟩
    · rintro ⟨n, hh⟩
      refine h1.mpr (fun hnil => ?_)
      rw [hnil] at hh
      cases hh
  · unfold WordQueue.update_problem_word_correct_attempt
    by_cases hr : q.is_repeating_problem_word = true
    · rw [if_pos hr, hr]
    · rw [if_neg hr]

/-- C1 witness: the amended invariant at a concrete reachable state — a
fresh queue whose current word was flagged, making the flag true and the
FIFO front the current word. -/
theorem c1_repeat_flag_invariant_witness :
    ((WordQueue.new ["a", "b", "c"] ["a", "b", "c"]).add_problem_word
      (WordQueue.new ["a", "b", "c"] ["a", "b", "c"]).current_word).is_repeating_problem_word
      = true ↔
    ∃ n, ((WordQueue.new ["a", "b", "c"] ["a", "b", "c"]).add_problem_word
      (WordQueue.new ["a", "b", "c"] ["a", "b", "c"]).current_word).problem_word_queue.head?
      = some ((((WordQueue.new ["a", "b", "c"] ["a", "b", "c"]).add_problem_word
        (WordQueue.new ["a", "b", "c"] ["a", "b", "c"]).current_word)).current_word, n) :=
  c1_repeat_flag_invariant.1 _
    (WordQueue.ReachNoSwitch.flag _ (WordQueue.ReachNoSwitch.init _ _ (by decide)))

/-! ### Claim C7 (corrected) -/

/-- C7 counterexample state: round trip through one-word lists. -/
def c7CexState : WordQueue :=
  ((WordQueue.new ["a"] ["a"]).change_word_list ["b"] ["b"]).change_word_list ["a"] ["a"]

/-- C7 counterexample: switching from `["a"]` to `["b"]` and back leaves
`current_word` empty, so the union of current word, lookahead and pool is
`["", "a"]`, not a permutation of `["a"]` — the round trip does not
preserve the word multiset for lists of at most two words. -/
theorem c7_counterexample :
    ¬ (c7CexState.current_word ::
        (c7CexState.next_words ++ c7CexState.all_words)).Perm ["a"] := by
  intro h
  have := h.length_eq
  simp [c7CexState, WordQueue.change_word_list, WordQueue.new,
    splitOffLast2, popOrDefault] at this

/-- C7, amended: for target lists of at least 3 words, switching away and
back preserves the word multiset (current word + lookahead + pool is a
permutation of the list); for shorter lists the re-derived current word
is the empty string (see the C10 behaviour) and the multiset gains an
empty-string entry.  The problem FIFO is untouched by every
`change_word_list` call, with no length restriction. -/
theorem c7_round_trip (q : WordQueue) (A B sB sA : List String)
    (hA : sA.Perm A) (h3 : 3 ≤ A.length) :
    ((((q.change_word_list B sB).change_word_list A sA).current_word ::
      (((q.change_word_list B sB).change_word_list A sA).next_words ++
       ((q.change_word_list B sB).change_word_list A sA).all_words)).Perm A) ∧
    (q.change_word_list B sB).problem_word_queue = q.problem_word_queue ∧
    ((q.change_word_list B sB).change_word_list A sA).problem_word_queue =
      q.problem_word_queue := by
  refine ⟨?_, rfl, rfl⟩
  have hlen : 3 ≤ sA.length := hA.length_eq.symm ▸ h3
  set rest := sA.take (sA.length - 2) with hrest
  set taken := sA.drop (sA.length - 2) with htaken
  have hrne : rest ≠ [] := by
    rw [hrest]
    have : 0 < sA.length - 2 := by omega
    intro hnil
    have := congrArg List.length hnil
    simp [List.length_take] at this
    omega
  have hcur :
      ((q.change_word_list B sB).change_word_list A sA).current_word = rest.getLast hrne := by
    show (popOrDefault rest).1 = rest.getLast hrne
    rw [popOrDefault, List.getLast?_eq_getLast rest hrne]
  have hnext : ((q.change_word_list B sB).change_word_list A sA).next_words = taken := rfl
  have hall :
      ((q.change_word_list B sB).change_word_list A sA).all_words = rest.dropLast := by
    show (popOrDefault rest).2 = rest.dropLast
    rw [popOrDefault, List.getLast?_eq_getLast rest hrne]
  rw [hcur, hnext, hall]
  have k1 : (rest.getLast hrne :: (taken ++ rest.dropLast)).Perm
      ((rest.dropLast ++ [rest.getLast hrne]) ++ taken) := by
    have c1 : (rest.getLast hrne :: (taken ++ rest.dropLast)).Perm
        (rest.getLast hrne :: (rest.dropLast ++ taken)) :=
      List.Perm.cons _ List.perm_append_comm
    have c2 : ((rest.getLast hrne :: rest.dropLast) ++ taken).Perm
        ((rest.dropLast ++ [rest.getLast hrne]) ++ taken) :=
      List.Perm.append_right taken (List.perm_append_singleton _ _).symm
    exact c1.trans c2
  have k2 : (rest.dropLast ++ [rest.getLast hrne]) ++ taken = sA := by
    rw [List.dropLast_append_getLast hrne, hrest, htaken, List.take_append_drop]
  rw [k2] at k1
  exact k1.trans hA

/-- C7 witness: the round trip at a concrete three-word list. -/
theorem c7_round_trip_witness :
    (((((WordQueue.new ["p", "q", "r"] ["p", "q", "r"]).change_word_list ["x"]
        ["x"]).change_word_list ["a", "b", "c"] ["b", "a", "c"]).current_word ::
      ((((WordQueue.new ["p", "q", "r"] ["p", "q", "r"]).change_word_list ["x"]
        ["x"]).change_word_list ["a", "b", "c"] ["b", "a", "c"]).next_words ++
       (((WordQueue.new ["p", "q", "r"] ["p", "q", "r"]).change_word_list ["x"]
        ["x"]).change_word_list ["a", "b", "c"] ["b", "a", "c"]).all_words)).Perm
      ["a", "b", "c"]) ∧
    ((WordQueue.new ["p", "q", "r"] ["p", "q", "r"]).change_word_list ["x"]
      ["x"]).problem_word_queue =
      (WordQueue.new ["p", "q", "r"] ["p", "q", "r"]).problem_word_queue ∧
    (((WordQueue.new ["p", "q", "r"] ["p", "q", "r"]).change_word_list ["x"]
      ["x"]).change_word_list ["a", "b", "c"] ["b", "a", "c"]).problem_word_queue =
      (WordQueue.new ["p", "q", "r"] ["p", "q", "r"]).problem_word_queue :=
  c7_round_trip (WordQueue.new ["p", "q", "r"] ["p", "q", "r"]) ["a", "b", "c"]
    ["x"] ["x"] ["b", "a", "c"] (by decide) (by decide)

/-! ### Claim C8 (confirmed) -/

/-- The invariant of the two ranked lists: sorted by `r`, at most 10
entries, pairwise-distinct words. -/
def RankedBy (r : (String × ℚ) → (String × ℚ) → Prop) (l : List (String × ℚ)) : Prop :=
  l.Sorted r ∧ l.length ≤ 10 ∧ (l.map Prod.fst).Nodup

/-- Removing the first entry for `w` removes the only one, under
distinct words. -/
lemma not_mem_map_fst_eraseP (l : List (String × ℚ)) (w : String)
    (h : (l.map Prod.fst).Nodup) :
    w ∉ (l.eraseP (fun p => p.1 == w)).map Prod.fst := by
  induction l with
  | nil => simp
  | cons a t ih =>
    rw [List.map_cons, List.nodup_cons] at h
    by_cases ha : a.1 = w
    · have hb : (a.1 == w) = true := by simp [ha]
      simp only [List.eraseP_cons, hb, cond_true]
      exact ha ▸ h.1
    · have hb : (a.1 == w) = false := by simp [ha]
      simp only [List.eraseP_cons, hb, cond_false, List.map_cons]
      intro hmem
      rcases List.mem_cons.mp hmem with h1 | h1
      · exact ha h1.symm
      · exact ih h.2 h1

/-- The erase/push/sort/truncate step preserves the ranked-list
invariant for any total transitive comparison. -/
lemma rankedBy_step (r : (String × ℚ) → (String × ℚ) → Prop) [DecidableRel r]
    [IsTotal (String × ℚ) r] [IsTrans (String × ℚ) r]
    (l : List (String × ℚ)) (w : String) (s : ℚ) (h : (l.map Prod.fst).Nodup) :
    RankedBy r ((List.insertionSort r
      (l.eraseP (fun p => p.1 == w) ++ [(w, s)])).take 10) := by
  set l1 := l.eraseP (fun p => p.1 == w) with hl1
  refine ⟨?_, ?_, ?_⟩
  · exact List.Pairwise.sublist (List.take_sublist 10 _) (List.sorted_insertionSort r _)
  · rw [List.length_take]
    exact min_le_left 10 _
  · have hperm : (List.insertionSort r (l1 ++ [(w, s)])).Perm (l1 ++ [(w, s)]) :=
      List.perm_insertionSort r _
    have hnd : ((l1 ++ [(w, s)]).map Prod.fst).Nodup := by
      rw [List.map_append]
      refine List.Nodup.append ?_ (by simp) ?_
      · exact List.Nodup.sublist (List.Sublist.map Prod.fst (List.eraseP_sublist l)) h
      · intro x hx hy
        simp only [List.map_cons, List.map_nil, List.mem_singleton] at hy
        rw [hy] at hx
        exact not_mem_map_fst_eraseP l w h hx
    have hnds : ((List.insertionSort r (l1 ++ [(w, s)])).map Prod.fst).Nodup :=
      ((hperm.map Prod.fst).nodup_iff).mpr hnd
    rw [List.map_take]
    exact List.Nodup.sublist (List.take_sublist 10 _) hnds

lemma update_fastest_words_preserves (l : List (String × ℚ)) (w : String) (s : ℚ)
    (h : RankedBy descSp l) : RankedBy descSp (update_fastest_words l w s) := by
  unfold update_fastest_words
  rcases hg : (decide (l.length < 10) ||
      (match l.getLast? with
       | some p => decide (p.2 < s)
       | none => false) : Bool) with _ | _
  · simpa [hg] using h
  · simpa [hg] using rankedBy_step descSp l w s h.2.2

lemma update_slowest_words_preserves (l : List (String × ℚ)) (w : String) (s : ℚ)
    (h : RankedBy ascSp l) : RankedBy ascSp (update_slowest_words l w s) := by
  unfold update_slowest_words
  rcases hg : (decide (l.length < 10) ||
      (match l.getLast? with
       | some p => decide (s < p.2)
       | none => false) : Bool) with _ | _
  · simpa [hg] using h
  · simpa [hg] using rankedBy_step ascSp l w s h.2.2

lemma fsw_foldl_preserves (ops : List (String × ℚ)) (t : FastestSlowestWords)
    (h : RankedBy descSp t.fastest_words ∧ RankedBy ascSp t.slowest_words) :
    RankedBy descSp (ops.foldl (fun t p => t.update p.1 p.2) t).fastest_words ∧
    RankedBy ascSp (ops.foldl (fun t p => t.update p.1 p.2) t).slowest_words := by
  induction ops generalizing t with
  | nil => exact h
  | cons p rest ih =>
    exact ih (t.update p.1 p.2)
      ⟨update_fastest_words_preserves _ _ _ h.1, update_slowest_words_preserves _ _ _ h.2⟩

/-- C8: after any sequence of `FastestSlowestWords::update` calls starting
from the empty tracker, the fastest list is sorted descending by speed,
holds at most 10 entries and has pairwise-distinct words; the slowest
list satisfies the ascending dual.  (A word already present is erased
before the new pair is pushed, which is what keeps the words distinct.) -/
theorem c8_ranked_lists_invariant (ops : List (String × ℚ)) :
    ((ops.foldl (fun t p => t.update p.1 p.2)
        (⟨[], []⟩ : FastestSlowestWords)).fastest_words.Sorted descSp ∧
      (ops.foldl (fun t p => t.update p.1 p.2)
        (⟨[], []⟩ : FastestSlowestWords)).fastest_words.length ≤ 10 ∧
      ((ops.foldl (fun t p => t.update p.1 p.2)
        (⟨[], []⟩ : FastestSlowestWords)).fastest_words.map Prod.fst).Nodup) ∧
    ((ops.foldl (fun t p => t.update p.1 p.2)
        (⟨[], []⟩ : FastestSlowestWords)).slowest_words.Sorted ascSp ∧
      (ops.foldl (fun t p => t.update p.1 p.2)
        (⟨[], []⟩ : FastestSlowestWords)).slowest_words.length ≤ 10 ∧
      ((ops.foldl (fun t p => t.update p.1 p.2)
        (⟨[], []⟩ : FastestSlowestWords)).slowest_words.map Prod.fst).Nodup) :=
  fsw_foldl_preserves ops ⟨[], []⟩
    ⟨⟨List.sorted_nil, by simp, List.nodup_nil⟩, ⟨List.sorted_nil, by simp, List.nodup_nil⟩⟩

/-! ### Claim C9 (confirmed) -/

/-- The state produced by the non-empty-input backspace branch of
`App::on_key` (used to characterize that branch). -/
def backspaceResult (a : App) (now : ℚ) : App :=
  let p2 :=
    match a.performance.last_keypress_time with
    | some t => a.performance.update_struggle_combinations (durSince now t) a.user_input
    | none => a.performance
  let p3 := p2.set_last_keypress_time now
  let u2 := String.mk a.user_input.data.dropLast
  let p4 := (p3.undo_mistype_at u2.data.length).record_backspace
  App.add_problem_word
    { a with performance := p4, user_input := u2 } now

lemma on_key_backspace_eq (a : App) (now : ℚ) (r : List String)
    (h : ¬ (a.user_input = "")) :
    a.on_key now r Key.backspace = some (backspaceResult a now) := by
  unfold App.on_key backspaceResult
  cases hlk : a.performance.last_keypress_time <;>
    simp [hlk, h]

/-- C9: a backspace on non-empty input removes the last input character,
removes the most recent mistyped-position entry exactly when it equals
the new input length, increments the backspace counter, and immediately
flags the current word: a ledger entry for it exists afterwards, it sits
in the queue's problem FIFO, and the repeat flag is set — all before any
word submission. -/
theorem c9_backspace_flags (a : App) (now : ℚ) (r : List String)
    (h : a.user_input ≠ "") :
    ∃ a', a.on_key now r Key.backspace = some a' ∧
      a'.user_input.data = a.user_input.data.dropLast ∧
      a'.performance.mistyped_chars =
        (if a.performance.mistyped_chars.getLast? =
            some (a.user_input.length - 1)
         then a.performance.mistyped_chars.dropLast
         else a.performance.mistyped_chars) ∧
      a'.performance.backspace_count = a.performance.backspace_count + 1 ∧
      (∃ e ∈ a'.performance.problem_words, e.word = a.word_queue.current_word) ∧
      (a.word_queue.current_word, 0) ∈ a'.word_queue.problem_word_queue ∧
      a'.word_queue.is_repeating_problem_word = true := by
  have heq : (String.mk a.user_input.data.dropLast).data.length = a.user_input.length - 1 :=
    List.length_dropLast _
  refine ⟨backspaceResult a now, on_key_backspace_eq a now r h, ?_, ?_, ?_, ?_, ?_, ?_⟩
  · rfl
  · unfold backspaceResult App.add_problem_word
    cases hlk : a.performance.last_keypress_time <;>
    · simp only [PerformanceTracker.add_problem_word, PerformanceTracker.record_backspace,
        PerformanceTracker.undo_mistype_at, PerformanceTracker.set_last_keypress_time,
        PerformanceTracker.update_struggle_combinations, heq]
      rcases hgl : a.performance.mistyped_chars.getLast? with _ | last
      · simp
      · by_cases hlast : last = a.user_input.length - 1 <;> simp [hlast]
  · unfold backspaceResult App.add_problem_word
    cases hlk : a.performance.last_keypress_time <;>
    · simp only [PerformanceTracker.add_problem_word, PerformanceTracker.record_backspace,
        PerformanceTracker.undo_mistype_at, PerformanceTracker.set_last_keypress_time,
        PerformanceTracker.update_struggle_combinations]
      split
      · split <;> rfl
      · rfl
  · unfold backspaceResult App.add_problem_word
    cases hlk : a.performance.last_keypress_time <;>
    · simp only [PerformanceTracker.add_problem_word]
      exact pwAdd_exists_entry _ _ _ _
  · exact addProblemWord_mem_queue a.word_queue a.word_queue.current_word
  · simp [backspaceResult, App.add_problem_word, WordQueue.add_problem_word]

/-- C9 witness: one backspace right after one correct character, before
any submission, flags the word. -/
theorem c9_backspace_flags_witness :
    ∃ a', App.on_key
        { performance := PerformanceTracker.default
          word_queue := WordQueue.new ["zz", "yy", "abcde"] ["zz", "yy", "abcde"]
          user_input := "a" } 1 [] Key.backspace = some a' ∧
      a'.user_input.data = ("a" : String).data.dropLast ∧
      a'.performance.mistyped_chars =
        (if (PerformanceTracker.default).mistyped_chars.getLast? =
            some (("a" : String).length - 1)
         then (PerformanceTracker.default).mistyped_chars.dropLast
         else (PerformanceTracker.default).mistyped_chars) ∧
      a'.performance.backspace_count = (PerformanceTracker.default).backspace_count + 1 ∧
      (∃ e ∈ a'.performance.problem_words,
        e.word = (WordQueue.new ["zz", "yy", "abcde"] ["zz", "yy", "abcde"]).current_word) ∧
      ((WordQueue.new ["zz", "yy", "abcde"] ["zz", "yy", "abcde"]).current_word, 0)
        ∈ a'.word_queue.problem_word_queue ∧
      a'.word_queue.is_repeating_problem_word = true :=
  c9_backspace_flags
    { performance := PerformanceTracker.default
      word_queue := WordQueue.new ["zz", "yy", "abcde"] ["zz", "yy", "abcde"]
      user_input := "a" } 1 [] (by decide)

/-! ### Claim C5 (confirmed) -/

/-- Steps 1-3 of `App::on_key` for a non-backspace key: word-start
recording, struggle-combination feeding, last-keypress update. -/
def keystrokePre (a : App) (now : ℚ) : App :=
  let p1 := a.performance.start_word_if_needed now
  let p2 :=
    match p1.last_keypress_time with
    | some t => p1.update_struggle_combinations (durSince now t) a.user_input
    | none => p1
  { a with performance := p2.set_last_keypress_time now }

/-- The state produced by a printable non-space character key. -/
def charResult (a : App) (now : ℚ) (c : Char) : App :=
  let a1 := keystrokePre a now
  let p4 :=
    match a1.word_queue.current_word.data.get? a1.user_input.data.length with
    | some expected =>
      if c ≠ expected then a1.performance.record_mistype a1.user_input.data.length
      else a1.performance
    | none => a1.performance
  { a1 with performance := p4, user_input := String.mk (a1.user_input.data ++ [c]) }

lemma on_key_char_eq (a : App) (now : ℚ) (r : List String) (c : Char) (hc : ¬ (c = ' ')) :
    a.on_key now r (Key.char c) = some (charResult a now c) := by
  unfold App.on_key charResult keystrokePre
  cases hlk : a.performance.last_keypress_time <;> simp [hlk, hc]

lemma on_key_space_eq (a : App) (now : ℚ) (r : List String) :
    a.on_key now r (Key.char ' ') = (keystrokePre a now).on_word_completed now r := by
  unfold App.on_key keystrokePre
  cases hlk : a.performance.last_keypress_time <;> simp [hlk]

/-- Start of the C5 scenario: a fresh session (ledger contents `L`
arbitrary) whose current word is the 5-character `"abcde"`, not being
repeated, with no input typed. -/
def c5Start (L : List ProblemWordEntry) : App :=
  { performance := { PerformanceTracker.default with problem_words := L }
    word_queue := WordQueue.new ["zz", "yy", "abcde"] ["zz", "yy", "abcde"]
    user_input := "" }

/-- Session state midway through the C5 scenario: `input` characters of
`"abcde"` typed, all at time 0. -/
def c5Mid (L : List ProblemWordEntry) (combos : List (String × ℚ)) (input : List Char) : App :=
  { performance :=
      { recent_word_speeds := []
        fastest_slowest_words := ⟨[], []⟩
        problem_words := L
        struggle_combinations := combos
        last_keypress_time := some 0
        word_start_time := some 0
        total_time := 0
        total_correct_chars := 0
        backspace_count := 0
        mistyped_chars := [] }
    word_queue :=
      { problem_word_queue := []
        original_words := ["zz", "yy", "abcde"]
        all_words := []
        current_word := "abcde"
        next_words := ["yy", "zz"]
        is_repeating_problem_word := false
        problem_word_repetitions := 0 }
    user_input := String.mk input }

/-- Final state of the C5 scenario: speed 1 recorded, 60 seconds and 5
characters accumulated, ledger only run through eviction. -/
def c5Final (L : List ProblemWordEntry) : App :=
  { performance :=
      { recent_word_speeds := [1]
        fastest_slowest_words := ⟨[("abcde", 1)], [("abcde", 1)]⟩
        problem_words := pwRemoveLearnedWords L
        struggle_combinations :=
          [("ab", 1/5), ("bc", 1/5), ("cd", 1/5), ("abc", 3/10), ("bcd", 3/10),
           ("de", 2/5), ("cde", 3/5)]
        last_keypress_time := some 60
        word_start_time := none
        total_time := 60
        total_correct_chars := 5
        backspace_count := 0
        mistyped_chars := [] }
    word_queue :=
      { problem_word_queue := []
        original_words := ["zz", "yy", "abcde"]
        all_words := ["zz", "yy"]
        current_word := "yy"
        next_words := ["zz", "abcde"]
        is_repeating_problem_word := false
        problem_word_repetitions := 0 }
    user_input := "" }

lemma c5_key1 (L : List ProblemWordEntry) :
    (c5Start L).on_key 0 ["zz", "yy", "abcde"] (Key.char 'a') = some (c5Mid L [] ['a']) := by
  rw [on_key_char_eq _ _ _ _ (by decide)]
  norm_num [charResult, keystrokePre, c5Start, c5Mid, PerformanceTracker.default,
    PerformanceTracker.start_word_if_needed, PerformanceTracker.set_last_keypress_time,
    PerformanceTracker.record_mistype, WordQueue.new, popOrDefault,
    show ("abcde" : String).data = ['a', 'b', 'c', 'd', 'e'] from rfl,
    show ("" : String).data = [] from rfl]

lemma c5_key2 (L : List ProblemWordEntry) :
    (c5Mid L [] ['a']).on_key 0 ["zz", "yy", "abcde"] (Key.char 'b') =
      some (c5Mid L [] ['a', 'b']) := by
  rw [on_key_char_eq _ _ _ _ (by decide)]
  norm_num [charResult, keystrokePre, c5Mid,
    PerformanceTracker.start_word_if_needed, PerformanceTracker.set_last_keypress_time,
    PerformanceTracker.record_mistype, PerformanceTracker.update_struggle_combinations,
    scUpdate, scAddOne, get_letter_combinations, calculate_combo_speed, durSince,
    show ("abcde" : String).data = ['a', 'b', 'c', 'd', 'e'] from rfl]

lemma c5_key3 (L : List ProblemWordEntry) :
    (c5Mid L [] ['a', 'b']).on_key 0 ["zz", "yy", "abcde"] (Key.char 'c') =
      some (c5Mid L [("ab", 0)] ['a', 'b', 'c']) := by
  rw [on_key_char_eq _ _ _ _ (by decide)]
  norm_num [charResult, keystrokePre, c5Mid,
    PerformanceTracker.start_word_if_needed, PerformanceTracker.set_last_keypress_time,
    PerformanceTracker.record_mistype, PerformanceTracker.update_struggle_combinations,
    scUpdate, scAddOne, get_letter_combinations, calculate_combo_speed, durSince,
    List.insertionSort, List.orderedInsert,
    show ("abcde" : String).data = ['a', 'b', 'c', 'd', 'e'] from rfl,
    show String.mk ['a', 'b'] = "ab" from rfl]

lemma c5_key4 (L : List ProblemWordEntry) :
    (c5Mid L [("ab", 0)] ['a', 'b', 'c']).on_key 0 ["zz", "yy", "abcde"] (Key.char 'd') =
      some (c5Mid L [("ab", 0), ("abc", 0), ("bc", 0)] ['a', 'b', 'c', 'd']) := by
  rw [on_key_char_eq _ _ _ _ (by decide)]
  norm_num [charResult, keystrokePre, c5Mid,
    PerformanceTracker.start_word_if_needed, PerformanceTracker.set_last_keypress_time,
    PerformanceTracker.record_mistype, PerformanceTracker.update_struggle_combinations,
    scUpdate, scAddOne, get_letter_combinations, calculate_combo_speed, durSince,
    List.insertionSort, List.orderedInsert,
    show ("abcde" : String).data = ['a', 'b', 'c', 'd', 'e'] from rfl,
    show String.mk ['a', 'b'] = "ab" from rfl,
    show String.mk ['a', 'b', 'c'] = "abc" from rfl,
    show String.mk ['b', 'c'] = "bc" from rfl]

lemma c5_key5 (L : List ProblemWordEntry) :
    (c5Mid L [("ab", 0), ("abc", 0), ("bc", 0)] ['a', 'b', 'c', 'd']).on_key 0
        ["zz", "yy", "abcde"] (Key.char 'e') =
      some (c5Mid L [("ab", 0), ("abc", 0), ("bc", 0), ("bcd", 0), ("cd", 0)]
        ['a', 'b', 'c', 'd', 'e']) := by
  rw [on_key_char_eq _ _ _ _ (by decide)]
  norm_num [charResult, keystrokePre, c5Mid,
    PerformanceTracker.start_word_if_needed, PerformanceTracker.set_last_keypress_time,
    PerformanceTracker.record_mistype, PerformanceTracker.update_struggle_combinations,
    scUpdate, scAddOne, get_letter_combinations, calculate_combo_speed, durSince,
    List.insertionSort, List.orderedInsert,
    show ("abcde" : String).data = ['a', 'b', 'c', 'd', 'e'] from rfl,
    show String.mk ['a', 'b'] = "ab" from rfl,
    show String.mk ['a', 'b', 'c'] = "abc" from rfl,
    show String.mk ['b', 'c'] = "bc" from rfl,
    show String.mk ['b', 'c', 'd'] = "bcd" from rfl,
    show String.mk ['c', 'd'] = "cd" from rfl]

lemma c5_key6 (L : List ProblemWordEntry) (hL : ∀ e ∈ L, e.word ≠ "abcde") :
    (c5Mid L [("ab", 0), ("abc", 0), ("bc", 0), ("bcd", 0), ("cd", 0)]
      ['a', 'b', 'c', 'd', 'e']).on_key 60 ["zz", "yy", "abcde"] (Key.char ' ') =
    some (c5Final L) := by
  have hpw : pwUpdateCorrectAttempts L "abcde" = L :=
    pwUpdateCorrectAttempts_of_not_mem L "abcde" hL
  rw [on_key_space_eq]
  norm_num [keystrokePre, c5Mid, c5Final, App.on_word_completed, App.calculate_word_speed,
    PerformanceTracker.start_word_if_needed, PerformanceTracker.set_last_keypress_time,
    PerformanceTracker.update_struggle_combinations, PerformanceTracker.update_recent_word_speeds,
    PerformanceTracker.update_fastest_slowest_words, PerformanceTracker.record_word_completed,
    PerformanceTracker.backspace_used, PerformanceTracker.update_problem_word_correct_attempts,
    PerformanceTracker.remove_learned_words, PerformanceTracker.reset_word_state,
    scUpdate, scAddOne, get_letter_combinations, calculate_combo_speed,
    wstUpdate, FastestSlowestWords.update, update_fastest_words, update_slowest_words,
    List.insertionSort, List.orderedInsert,
    WordQueue.nextWord, WordQueue.nextWordAdvance, WordQueue.refillLoop, WordQueue.refillStep,
    splitOffLast2, hpw,
    show durSince (60 : ℚ) 0 = 60 from by norm_num [durSince, max_def],
    show popOrDefault ["zz", "yy", "abcde"] = ("abcde", ["zz", "yy"]) from rfl,
    show String.mk ['a', 'b', 'c', 'd', 'e'] = "abcde" from rfl,
    show ("abcde" : String).length = 5 from rfl,
    show ("abcde" : String).data = ['a', 'b', 'c', 'd', 'e'] from rfl,
    show String.mk ['a', 'b'] = "ab" from rfl,
    show String.mk ['a', 'b', 'c'] = "abc" from rfl,
    show String.mk ['b', 'c'] = "bc" from rfl,
    show String.mk ['b', 'c', 'd'] = "bcd" from rfl,
    show String.mk ['c', 'd'] = "cd" from rfl,
    show String.mk ['c', 'd', 'e'] = "cde" from rfl,
    show String.mk ['d', 'e'] = "de" from rfl]

/-- C5: typing the 5-character non-problem word `"abcde"` exactly (all
keys at time 0, the terminating space 60 seconds after the word start,
no mistypes, no backspaces) records a word speed of exactly 1 WPM, and
the ledger — which contained no entry for the word — still contains none
afterwards (the completion path only runs eviction, never `add`). -/
theorem c5_one_wpm_no_ledger_entry (L : List ProblemWordEntry)
    (hL : ∀ e ∈ L, e.word ≠ "abcde") :
    ∃ a', ((((((c5Start L).on_key 0 ["zz", "yy", "abcde"] (Key.char 'a')).bind
      (fun a => a.on_key 0 ["zz", "yy", "abcde"] (Key.char 'b'))).bind
      (fun a => a.on_key 0 ["zz", "yy", "abcde"] (Key.char 'c'))).bind
      (fun a => a.on_key 0 ["zz", "yy", "abcde"] (Key.char 'd'))).bind
      (fun a => a.on_key 0 ["zz", "yy", "abcde"] (Key.char 'e'))).bind
      (fun a => a.on_key 60 ["zz", "yy", "abcde"] (Key.char ' ')) = some a' ∧
      a'.performance.recent_word_speeds = [1] ∧
      ∀ e ∈ a'.performance.problem_words, e.word ≠ "abcde" := by
  refine ⟨c5Final L, ?_, rfl, ?_⟩
  · rw [c5_key1 L, Option.some_bind, c5_key2 L, Option.some_bind, c5_key3 L,
      Option.some_bind, c5_key4 L, Option.some_bind, c5_key5 L, Option.some_bind,
      c5_key6 L hL]
  · intro e he
    exact hL e (List.mem_of_mem_filter he)

/-- C5 witness: the scenario from an empty ledger. -/
theorem c5_one_wpm_no_ledger_entry_witness :
    ∃ a', ((((((c5Start []).on_key 0 ["zz", "yy", "abcde"] (Key.char 'a')).bind
      (fun a => a.on_key 0 ["zz", "yy", "abcde"] (Key.char 'b'))).bind
      (fun a => a.on_key 0 ["zz", "yy", "abcde"] (Key.char 'c'))).bind
      (fun a => a.on_key 0 ["zz", "yy", "abcde"] (Key.char 'd'))).bind
      (fun a => a.on_key 0 ["zz", "yy", "abcde"] (Key.char 'e'))).bind
      (fun a => a.on_key 60 ["zz", "yy", "abcde"] (Key.char ' ')) = some a' ∧
      a'.performance.recent_word_speeds = [1] ∧
      ∀ e ∈ a'.performance.problem_words, e.word ≠ "abcde" :=
  c5_one_wpm_no_ledger_entry [] (by intro e he; cases he)

end Dvoratt
